import Mathlib

/-!
Verification of the temporal windowing and feature-extraction pipeline of
CV-Action (`src/sense/finetuning.py`): exact-rational embedding of
`uniform_frame_sample`, the warm-up padding and strided feature emission of
`compute_features`, and the crop-position logic of
`FeaturesDataset.__getitem__`.

Machine floats are embedded as exact rationals; all concrete inputs used in
counterexamples were chosen so that the corresponding IEEE-754 evaluation is
exact (e.g. `1/(20/60)` and `1/(2/3)` round to exactly `3.0` and `1.5` in
binary64).
-/

namespace CVAction

/-! ### Constants (src/sense/finetuning.py, lines 17-18) -/

def MODEL_TEMPORAL_DEPENDENCY : ℕ := 45

def MODEL_TEMPORAL_STRIDE : ℕ := 4

/-! ### uniform_frame_sample (src/sense/finetuning.py, lines 149-160)

`indices = np.arange(0, depth, 1. / sample_rate)`;
`offset = int((depth - indices[-1]) / 2)`;
`sampled_frames = (indices + offset).astype(np.int32)`;
`return video[sampled_frames]`.
-/

/-- Truncation toward zero, the behaviour of Python `int(...)` and of numpy
`astype(np.int32)` on (in-range) values. -/
def truncToZero (q : ℚ) : ℤ :=
  if q < 0 then -⌊-q⌋ else ⌊q⌋

/-- `np.arange(0, stop, step)` for positive `step`: the values
`0, step, 2*step, ...` below `stop`; its length is `⌈stop / step⌉`. -/
def npArange (stop step : ℚ) : List ℚ :=
  (List.range ⌈stop / step⌉₊).map (fun i : ℕ => (i : ℚ) * step)

/-- The integer frame indices selected by `uniform_frame_sample` when
`sample_rate < 1` (lines 155-158): `arange` indices at spacing
`1 / sample_rate`, recentred by `offset = int((depth - indices[-1]) / 2)` and
truncated to machine integers. -/
def sampleIndices (depth : ℕ) (sample_rate : ℚ) : List ℤ :=
  let indices := npArange (depth : ℚ) (1 / sample_rate)
  let offset : ℤ := truncToZero (((depth : ℚ) - indices.getLastD 0) / 2)
  indices.map (fun x => truncToZero (x + (offset : ℚ)))

/-- Numpy integer indexing `video[i]`: nonnegative indices address from the
front, negative indices wrap from the back. -/
def npIndex [Inhabited α] (video : List α) (i : ℤ) : α :=
  if 0 ≤ i then video.getD i.toNat default
  else video.getD (video.length - (-i).toNat) default

/-- `uniform_frame_sample(video, sample_rate)` (lines 149-160): when
`sample_rate < 1` select the `sampleIndices` frames, otherwise return the
video unchanged. -/
def uniform_frame_sample [Inhabited α] (video : List α) (sample_rate : ℚ) :
    List α :=
  if sample_rate < 1 then
    (sampleIndices video.length sample_rate).map (npIndex video)
  else video

/-- Follows the spec's words, for comparison with `sampleIndices`: the spec
claims the selected indices are `round(i / ratio)` shifted by the symmetric
centering offset. -/
def sampleIndicesRoundSpec (depth : ℕ) (sample_rate : ℚ) : List ℤ :=
  let indices := npArange (depth : ℚ) (1 / sample_rate)
  let offset : ℤ := truncToZero (((depth : ℚ) - indices.getLastD 0) / 2)
  indices.map (fun x => round x + offset)

/-! ### compute_features (src/sense/finetuning.py, lines 163-218) -/

/-- Modelled from the spec: the inference engine (`sense/engine.py`, which is
not under `src/`). Per spec sections 4.2 and 8, the model is an opaque stateful
strided network that consumes frames in order and emits one output per
stride-aligned window, and test stubs tag each output with the highest-index
frame seen (the window's right edge). Starting at stream position `start` and
consuming `len` further frames, an output tagged with the current right-edge
position `p` is emitted whenever the number of frames consumed so far, `p + 1`,
is a multiple of `MODEL_TEMPORAL_STRIDE`. -/
def inferOutputs (start len : ℕ) : List ℕ :=
  (List.range len).filterMap fun i =>
    if (start + i + 1) % MODEL_TEMPORAL_STRIDE = 0 then some (start + i)
    else none

/-- Line 182: `frames_to_add = MODEL_TEMPORAL_STRIDE *
(MODEL_TEMPORAL_DEPENDENCY // MODEL_TEMPORAL_STRIDE + 1) - 1`. -/
def frames_to_add : ℕ :=
  MODEL_TEMPORAL_STRIDE * (MODEL_TEMPORAL_DEPENDENCY / MODEL_TEMPORAL_STRIDE + 1) - 1

/-- Lines 186-187: `np.pad(frames, ((frames_to_add, 0), ...), mode='edge')`,
left padding with `frames_to_add` copies of the first frame. -/
def paddedFrames [Inhabited α] (frames : List α) : List α :=
  List.replicate frames_to_add (frames.headD default) ++ frames

/-- Python slice `xs[-n:]` (line 198): the last `n` elements, the whole list
when `n = 0` or `n ≥ xs.length`. -/
def pythonTail (n : ℕ) (xs : List ℕ) : List ℕ :=
  if n = 0 then xs else xs.drop (xs.length - n)

/-- Length of the warm-up chunk `clip[:, 0:frames_to_add + 1]` (line 194) for
a stream of `n` real frames (the padded stream has `frames_to_add + n`
frames). -/
def warmupChunkLen (n : ℕ) : ℕ :=
  min (frames_to_add + 1) (frames_to_add + n)

/-- The right-edge tags of the features saved by `compute_features`
(lines 194-203) for a stream of `n` real frames: the warm-up call on the first
`warmupChunkLen n` padded frames, of whose outputs the last `num_timesteps`
are kept, followed by the call on the remaining frames. -/
def computeFeatureEdges (n num_timesteps : ℕ) : List ℕ :=
  let total := frames_to_add + n
  let pre := inferOutputs 0 (warmupChunkLen n)
  let kept := pythonTail num_timesteps pre
  let preds := inferOutputs (warmupChunkLen n) (total - warmupChunkLen n)
  kept ++ preds

/-- Lines 209-214: the representative frames saved alongside the features:
enumerate `frames[frames_to_add:]` and keep those with
`e % MODEL_TEMPORAL_STRIDE == 0`. -/
def framesToSave [Inhabited α] (frames : List α) : List α :=
  ((paddedFrames frames).drop frames_to_add).enum.filterMap fun p =>
    if p.1 % MODEL_TEMPORAL_STRIDE = 0 then some p.2 else none

/-- Helper: `framesToSave`'s enumerate-and-filter, starting the enumeration
at index `k`. -/
def strideFilter (k : ℕ) (l : List α) : List α :=
  (List.enumFrom k l).filterMap fun p =>
    if p.1 % MODEL_TEMPORAL_STRIDE = 0 then some p.2 else none

/-- Helper: every fourth element of a list, starting with the first. -/
def everyFourth : List α → List α
  | [] => []
  | a :: l => a :: everyFourth (l.drop 3)
termination_by l => l.length
decreasing_by simp [List.length_drop]; omega

/-! ### FeaturesDataset (src/sense/finetuning.py, lines 43-92) -/

/-- Line 51: `num_frames_padded = int((full_network_minimum_frames - 1) /
stride)`. -/
def num_frames_padded (full_network_minimum_frames stride : ℕ) : ℕ :=
  (full_network_minimum_frames - 1) / stride

/-- Lines 84-86: the lower bound of the crop start drawn by
`np.random.randint` in the non-temporal branch of `__getitem__`:
`max(min(num_preds - num_timesteps - 1, num_frames_padded), 0)`. -/
def getitem_minimum_position (num_preds num_timesteps nfp : ℤ) : ℤ :=
  max (min (num_preds - num_timesteps - 1) nfp) 0

/-- Line 88: `features[position : position + num_timesteps]`. -/
def getitem_crop (features : List α) (position num_timesteps : ℕ) : List α :=
  (features.drop position).take num_timesteps

example : frames_to_add = 47 := by decide
example : inferOutputs 0 48 = [3, 7, 11, 15, 19, 23, 27, 31, 35, 39, 43, 47] := by decide
example : computeFeatureEdges 5 1 = [47, 51] := by decide

/-! ### Helper lemmas on lists and rational floors -/

lemma getLastD_range_map (f : ℕ → ℚ) (n : ℕ) (hn : 1 ≤ n) (d : ℚ) :
    ((List.range n).map f).getLastD d = f (n - 1) := by
  obtain ⟨m, rfl⟩ : ∃ m, n = m + 1 := ⟨n - 1, by omega⟩
  rw [List.range_succ, List.map_append, List.map_cons, List.map_nil]
  simp [List.getLastD_concat]

lemma truncToZero_of_nonneg {q : ℚ} (h : 0 ≤ q) : truncToZero q = ⌊q⌋ := by
  unfold truncToZero
  rw [if_neg (not_lt.mpr h)]

lemma one_lt_inv_rate {r : ℚ} (h0 : 0 < r) (h1 : r < 1) : 1 < 1 / r := by
  rw [lt_div_iff₀ h0, one_mul]
  exact h1

lemma ceil_len_pos {depth : ℕ} {r : ℚ} (hd : 1 ≤ depth) (h0 : 0 < r)
    (h1 : r < 1) : 1 ≤ ⌈(depth : ℚ) / (1 / r)⌉₊ := by
  have hs0 : (0 : ℚ) < 1 / r := lt_trans one_pos (one_lt_inv_rate h0 h1)
  have hdq : (0 : ℚ) < (depth : ℚ) := by exact_mod_cast hd
  exact Nat.ceil_pos.mpr (div_pos hdq hs0)

lemma last_index_lt {depth : ℕ} {r : ℚ} (hd : 1 ≤ depth) (h0 : 0 < r)
    (h1 : r < 1) :
    ((⌈(depth : ℚ) / (1 / r)⌉₊ - 1 : ℕ) : ℚ) * (1 / r) < (depth : ℚ) := by
  set s : ℚ := 1 / r with hs
  have hs1 : 1 < s := one_lt_inv_rate h0 h1
  have hs0 : (0 : ℚ) < s := lt_trans one_pos hs1
  have hL1 : 1 ≤ ⌈(depth : ℚ) / s⌉₊ := ceil_len_pos hd h0 h1
  have hcast : ((⌈(depth : ℚ) / s⌉₊ - 1 : ℕ) : ℚ) = (⌈(depth : ℚ) / s⌉₊ : ℚ) - 1 := by
    push_cast [Nat.cast_sub hL1]
    ring
  have hdq : (0 : ℚ) ≤ (depth : ℚ) / s := by positivity
  have hceil : (⌈(depth : ℚ) / s⌉₊ : ℚ) < (depth : ℚ) / s + 1 :=
    Nat.ceil_lt_add_one hdq
  rw [hcast]
  have : ((⌈(depth : ℚ) / s⌉₊ : ℚ) - 1) * s < ((depth : ℚ) / s) * s := by
    apply mul_lt_mul_of_pos_right _ hs0
    linarith
  rwa [div_mul_cancel₀ _ (ne_of_gt hs0)] at this

/-- Normal form of `sampleIndices` for `0 < sample_rate < 1` and a non-empty
video: the `k`-th selected index is `⌊k * (1/r)⌋` plus the integer centering
offset. -/
lemma sampleIndices_floor_form (depth : ℕ) (r : ℚ) (hd : 1 ≤ depth)
    (h0 : 0 < r) (h1 : r < 1) :
    sampleIndices depth r =
      (List.range ⌈(depth : ℚ) / (1 / r)⌉₊).map
        (fun k : ℕ => ⌊(k : ℚ) * (1 / r)⌋ +
          ⌊((depth : ℚ) -
            ((⌈(depth : ℚ) / (1 / r)⌉₊ - 1 : ℕ) : ℚ) * (1 / r)) / 2⌋) := by
  set s : ℚ := 1 / r with hs
  set L : ℕ := ⌈(depth : ℚ) / s⌉₊ with hLdef
  have hs1 : 1 < s := one_lt_inv_rate h0 h1
  have hs0 : (0 : ℚ) < s := lt_trans one_pos hs1
  have hL1 : 1 ≤ L := ceil_len_pos hd h0 h1
  have hM : ((L - 1 : ℕ) : ℚ) * s < (depth : ℚ) := last_index_lt hd h0 h1
  have hoffarg : 0 ≤ ((depth : ℚ) - ((L - 1 : ℕ) : ℚ) * s) / 2 := by
    have := le_of_lt hM
    linarith
  have hoff0 : 0 ≤ ⌊((depth : ℚ) - ((L - 1 : ℕ) : ℚ) * s) / 2⌋ :=
    Int.floor_nonneg.mpr hoffarg
  simp only [sampleIndices, npArange]
  rw [getLastD_range_map _ _ hL1 0]
  rw [truncToZero_of_nonneg hoffarg]
  rw [List.map_map]
  apply List.map_congr_left
  intro k _
  have hk0 : (0 : ℚ) ≤ (k : ℚ) * s := by positivity
  have harg : (0 : ℚ) ≤ (k : ℚ) * s +
      ((⌊((depth : ℚ) - ((L - 1 : ℕ) : ℚ) * s) / 2⌋ : ℤ) : ℚ) := by
    have : (0 : ℚ) ≤ ((⌊((depth : ℚ) - ((L - 1 : ℕ) : ℚ) * s) / 2⌋ : ℤ) : ℚ) := by
      exact_mod_cast hoff0
    linarith
  simp only [Function.comp]
  rw [truncToZero_of_nonneg harg, Int.floor_add_int]

/-- Every index selected by `sampleIndices` is within the bounds of the
video. -/
lemma sampleIndices_bounds (depth : ℕ) (r : ℚ) (hd : 1 ≤ depth) (h0 : 0 < r)
    (h1 : r < 1) :
    ∀ i ∈ sampleIndices depth r, 0 ≤ i ∧ i ≤ (depth : ℤ) - 1 := by
  have hs1 : 1 < 1 / r := one_lt_inv_rate h0 h1
  have hs0 : (0 : ℚ) < 1 / r := lt_trans one_pos hs1
  have hM : ((⌈(depth : ℚ) / (1 / r)⌉₊ - 1 : ℕ) : ℚ) * (1 / r) < (depth : ℚ) :=
    last_index_lt hd h0 h1
  rw [sampleIndices_floor_form depth r hd h0 h1]
  intro i hi
  obtain ⟨k, hk, rfl⟩ := List.mem_map.mp hi
  rw [List.mem_range] at hk
  set L : ℕ := ⌈(depth : ℚ) / (1 / r)⌉₊ with hL
  set M : ℚ := ((L - 1 : ℕ) : ℚ) * (1 / r) with hMdef
  set z : ℤ := ⌊((depth : ℚ) - M) / 2⌋ with hz
  have hz0 : 0 ≤ z := Int.floor_nonneg.mpr (by linarith)
  constructor
  · have : 0 ≤ ⌊(k : ℚ) * (1 / r)⌋ := Int.floor_nonneg.mpr (by positivity)
    omega
  · have hkM : ⌊(k : ℚ) * (1 / r)⌋ ≤ ⌊M⌋ := by
      apply Int.floor_le_floor
      rw [hMdef]
      apply mul_le_mul_of_nonneg_right _ hs0.le
      exact_mod_cast Nat.le_sub_one_of_lt hk
    have hm_lt : ⌊M⌋ < (depth : ℤ) := Int.floor_lt.mpr (by push_cast; exact hM)
    have hm_le : ((⌊M⌋ : ℤ) : ℚ) ≤ M := Int.floor_le M
    have hz_le : ((z : ℤ) : ℚ) ≤ ((depth : ℚ) - M) / 2 := Int.floor_le _
    have hm1 : ((⌊M⌋ : ℤ) : ℚ) ≤ (depth : ℚ) - 1 := by
      have h' : ⌊M⌋ + 1 ≤ (depth : ℤ) := hm_lt
      have h'' : ((⌊M⌋ + 1 : ℤ) : ℚ) ≤ ((depth : ℤ) : ℚ) := by exact_mod_cast h'
      push_cast at h''
      linarith
    have hfinal : ((⌊M⌋ + z : ℤ) : ℚ) < ((depth : ℤ) : ℚ) := by
      push_cast
      linarith
    have : ⌊M⌋ + z < (depth : ℤ) := by exact_mod_cast hfinal
    omega

/-- The indices selected by `sampleIndices` are strictly increasing. -/
lemma sampleIndices_pairwise (depth : ℕ) (r : ℚ) (hd : 1 ≤ depth) (h0 : 0 < r)
    (h1 : r < 1) : (sampleIndices depth r).Pairwise (· < ·) := by
  have hs1 : 1 < 1 / r := one_lt_inv_rate h0 h1
  rw [sampleIndices_floor_form depth r hd h0 h1]
  rw [List.pairwise_map]
  set z : ℤ := ⌊((depth : ℚ) -
      ((⌈(depth : ℚ) / (1 / r)⌉₊ - 1 : ℕ) : ℚ) * (1 / r)) / 2⌋ with hz
  have hmono : StrictMono (fun k : ℕ => ⌊(k : ℚ) * (1 / r)⌋ + z) := by
    apply strictMono_nat_of_lt_succ
    intro k
    have hstep : ⌊(k : ℚ) * (1 / r)⌋ + 1 ≤ ⌊((k + 1 : ℕ) : ℚ) * (1 / r)⌋ := by
      apply Int.le_floor.mpr
      have hfl : ((⌊(k : ℚ) * (1 / r)⌋ : ℤ) : ℚ) ≤ (k : ℚ) * (1 / r) :=
        Int.floor_le _
      have hexp : ((k + 1 : ℕ) : ℚ) * (1 / r) = (k : ℚ) * (1 / r) + 1 / r := by
        push_cast
        ring
      push_cast
      rw [hexp] at *
      push_cast at hfl
      linarith
    push_cast at hstep ⊢
    omega
  exact (List.pairwise_lt_range _).imp (fun h => hmono h)

/-- `uniform_frame_sample` is the `sampleIndices` selection when
`0 < sample_rate < 1`. -/
lemma uniform_frame_sample_eq_map (video : List ℤ) (r : ℚ)
    (hd : 1 ≤ video.length) (h0 : 0 < r) (h1 : r < 1) :
    uniform_frame_sample video r =
      (sampleIndices video.length r).map (fun i => video.getD i.toNat 0) := by
  unfold uniform_frame_sample
  rw [if_pos h1]
  apply List.map_congr_left
  intro i hi
  have h0i : 0 ≤ i := (sampleIndices_bounds video.length r hd h0 h1 i hi).1
  unfold npIndex
  rw [if_pos h0i]
  rfl

/-- `⌈(d : ℚ) / 3⌉₊` as a natural-number division. -/
lemma natCeil_div3 (d : ℕ) : ⌈(d : ℚ) / 3⌉₊ = (d + 2) / 3 := by
  rcases Nat.eq_zero_or_pos d with h | h
  · subst h
    norm_num
  · have hn1 : 1 ≤ (d + 2) / 3 := by omega
    apply (Nat.ceil_eq_iff (by omega)).mpr
    have h3 : 3 * ((d + 2) / 3) ≤ d + 2 := by omega
    have h4 : d + 2 < 3 * ((d + 2) / 3) + 3 := by omega
    constructor
    · rw [lt_div_iff₀ (by norm_num : (0 : ℚ) < 3)]
      have : ((d + 2) / 3 - 1) * 3 < d := by omega
      exact_mod_cast this
    · rw [div_le_iff₀ (by norm_num : (0 : ℚ) < 3)]
      have : d ≤ ((d + 2) / 3) * 3 := by omega
      exact_mod_cast this

/-- `⌊(m : ℚ) / 2⌋` as a natural-number division. -/
lemma intFloor_natCast_div2 (m : ℕ) : ⌊(m : ℚ) / 2⌋ = ((m / 2 : ℕ) : ℤ) := by
  rw [Int.floor_eq_iff]
  constructor
  · push_cast
    rw [le_div_iff₀ (by norm_num : (0 : ℚ) < 2)]
    have : m / 2 * 2 ≤ m := Nat.div_mul_le_self m 2
    exact_mod_cast this
  · push_cast
    rw [div_lt_iff₀ (by norm_num : (0 : ℚ) < 2)]
    have : m < (m / 2 + 1) * 2 := by omega
    exact_mod_cast this

/-! ### Helper lemmas for compute_features -/

lemma inferOutputs_succ (s m : ℕ) :
    inferOutputs s (m + 1) =
      inferOutputs s m ++
        (if (s + m + 1) % MODEL_TEMPORAL_STRIDE = 0 then [s + m] else []) := by
  unfold inferOutputs
  rw [List.range_succ, List.filterMap_append]
  by_cases h : (s + m + 1) % MODEL_TEMPORAL_STRIDE = 0
  · simp [h]
  · simp [h]

/-- Normal form of the outputs of the second inference call, which starts at
stream position 48. -/
lemma inferOutputs_warm (m : ℕ) :
    inferOutputs 48 m = (List.range (m / 4)).map (fun k => 51 + 4 * k) := by
  induction m with
  | zero => simp [inferOutputs]
  | succ m ih =>
    rw [inferOutputs_succ, ih]
    by_cases h : (48 + m + 1) % MODEL_TEMPORAL_STRIDE = 0
    · rw [if_pos h]
      unfold MODEL_TEMPORAL_STRIDE at h
      have h4 : (m + 1) / 4 = m / 4 + 1 := by omega
      rw [h4, List.range_succ, List.map_append, List.map_cons, List.map_nil]
      have h5 : 48 + m = 51 + 4 * (m / 4) := by omega
      rw [h5]
    · rw [if_neg h]
      unfold MODEL_TEMPORAL_STRIDE at h
      have h4 : (m + 1) / 4 = m / 4 := by omega
      rw [h4, List.append_nil]

lemma warmupChunkLen_eq {n : ℕ} (hn : 1 ≤ n) : warmupChunkLen n = 48 := by
  unfold warmupChunkLen frames_to_add MODEL_TEMPORAL_STRIDE MODEL_TEMPORAL_DEPENDENCY
  omega

lemma cons_map_shift (L : ℕ) :
    47 :: (List.range L).map (fun k => 51 + 4 * k) =
      (List.range (L + 1)).map (fun k => 47 + 4 * k) := by
  rw [List.range_succ_eq_map, List.map_cons, List.map_map]
  congr 1
  apply List.map_congr_left
  intro k _
  simp only [Function.comp, Nat.succ_eq_add_one]
  omega

/-- Normal form of the feature right edges with `num_timesteps = 1`: the
`k`-th saved feature's window ends at padded-stream position `47 + 4 * k`. -/
lemma computeFeatureEdges_one {n : ℕ} (hn : 1 ≤ n) :
    computeFeatureEdges n 1 =
      (List.range ((n - 1) / 4 + 1)).map (fun k => 47 + 4 * k) := by
  simp only [computeFeatureEdges]
  rw [warmupChunkLen_eq hn]
  have hpre : pythonTail 1 (inferOutputs 0 48) = [47] := by decide
  rw [hpre]
  have htot : frames_to_add + n - 48 = n - 1 := by
    unfold frames_to_add MODEL_TEMPORAL_STRIDE MODEL_TEMPORAL_DEPENDENCY
    omega
  rw [htot, inferOutputs_warm, List.singleton_append, cons_map_shift]

lemma pythonTail_ne_nil {xs : List ℕ} (h : xs ≠ []) (t : ℕ) :
    pythonTail t xs ≠ [] := by
  unfold pythonTail
  split
  · exact h
  · intro hcon
    have hlen := congrArg List.length hcon
    rw [List.length_drop, List.length_nil] at hlen
    have h1 : 1 ≤ xs.length := List.length_pos.mpr h
    omega

lemma strideFilter_cons (k : ℕ) (a : α) (l : List α) :
    strideFilter k (a :: l) =
      (if k % 4 = 0 then [a] else []) ++ strideFilter (k + 1) l := by
  unfold strideFilter MODEL_TEMPORAL_STRIDE
  by_cases h : k % 4 = 0
  · simp [List.enumFrom, h]
  · simp [List.enumFrom, h]

lemma strideFilter_mod (k : ℕ) (l : List α) :
    strideFilter k l = strideFilter (k % 4) l := by
  induction l generalizing k with
  | nil => rfl
  | cons a l ih =>
    rw [strideFilter_cons, strideFilter_cons]
    have h1 : k % 4 % 4 = k % 4 := Nat.mod_mod_of_dvd _ dvd_rfl
    rw [h1, ih (k + 1), ih (k % 4 + 1)]
    have h2 : (k + 1) % 4 = (k % 4 + 1) % 4 := by omega
    rw [h2]

lemma strideFilter_shift3 (l : List α) :
    strideFilter 3 l = strideFilter 0 (l.drop 1) := by
  cases l with
  | nil => rfl
  | cons a l =>
    rw [strideFilter_cons, if_neg (by decide : ¬ (3 % 4 = 0)), List.nil_append]
    have hd : (a :: l).drop 1 = l := rfl
    rw [hd]
    have h := strideFilter_mod 4 l
    norm_num at h
    exact h

lemma strideFilter_shift2 (l : List α) :
    strideFilter 2 l = strideFilter 0 (l.drop 2) := by
  cases l with
  | nil => rfl
  | cons a l =>
    rw [strideFilter_cons, if_neg (by decide : ¬ (2 % 4 = 0)), List.nil_append]
    have hd : (a :: l).drop 2 = l.drop 1 := rfl
    rw [hd]
    exact strideFilter_shift3 l

lemma strideFilter_shift1 (l : List α) :
    strideFilter 1 l = strideFilter 0 (l.drop 3) := by
  cases l with
  | nil => rfl
  | cons a l =>
    rw [strideFilter_cons, if_neg (by decide : ¬ (1 % 4 = 0)), List.nil_append]
    have hd : (a :: l).drop 3 = l.drop 2 := rfl
    rw [hd]
    exact strideFilter_shift2 l

lemma strideFilter_eq_everyFourth (l : List α) :
    strideFilter 0 l = everyFourth l := by
  have key : ∀ m, ∀ l : List α, l.length ≤ m →
      strideFilter 0 l = everyFourth l := by
    intro m
    induction m with
    | zero =>
      intro l hl
      have : l = [] := List.length_eq_zero.mp (by omega)
      subst this
      simp only [everyFourth]
      rfl
    | succ m ih =>
      intro l hl
      cases l with
      | nil =>
        simp only [everyFourth]
        rfl
      | cons a l =>
        rw [strideFilter_cons, strideFilter_shift1]
        rw [ih (l.drop 3) (by rw [List.length_drop]; simp at hl; omega)]
        simp [everyFourth]
  exact key l.length l le_rfl

lemma everyFourth_length (l : List α) :
    (everyFourth l).length = (l.length + 3) / 4 := by
  have key : ∀ m, ∀ l : List α, l.length ≤ m →
      (everyFourth l).length = (l.length + 3) / 4 := by
    intro m
    induction m with
    | zero =>
      intro l hl
      have : l = [] := List.length_eq_zero.mp (by omega)
      subst this
      simp [everyFourth]
    | succ m ih =>
      intro l hl
      cases l with
      | nil => simp [everyFourth]
      | cons a l =>
        simp only [everyFourth, List.length_cons]
        rw [ih (l.drop 3) (by rw [List.length_drop]; simp at hl; omega)]
        rw [List.length_drop]
        omega
  exact key l.length l le_rfl

lemma everyFourth_getD (l : List α) (e : ℕ) (d : α) :
    (everyFourth l).getD e d = l.getD (4 * e) d := by
  have key : ∀ m, ∀ l : List α, l.length ≤ m → ∀ e,
      (everyFourth l).getD e d = l.getD (4 * e) d := by
    intro m
    induction m with
    | zero =>
      intro l hl e
      have : l = [] := List.length_eq_zero.mp (by omega)
      subst this
      simp [everyFourth]
    | succ m ih =>
      intro l hl e
      cases l with
      | nil => simp [everyFourth]
      | cons a l =>
        simp only [everyFourth]
        cases e with
        | zero => rfl
        | succ e =>
          have hstep : (a :: everyFourth (l.drop 3)).getD (e + 1) d =
              (everyFourth (l.drop 3)).getD e d := rfl
          rw [hstep, ih (l.drop 3) (by rw [List.length_drop]; simp at hl; omega) e]
          have h1 : (l.drop 3).getD (4 * e) d = l.getD (3 + 4 * e) d := by
            simp [List.getD_eq_getElem?_getD, List.getElem?_drop]
          rw [h1]
          have h2 : 4 * (e + 1) = (4 * e + 3) + 1 := by ring
          rw [h2]
          have h3 : (a :: l).getD ((4 * e + 3) + 1) d = l.getD (4 * e + 3) d := rfl
          rw [h3]
          congr 1
          omega
  exact key l.length l le_rfl e

lemma drop_padded [Inhabited α] (frames : List α) :
    (paddedFrames frames).drop frames_to_add = frames := by
  unfold paddedFrames
  have h := List.drop_left (List.replicate frames_to_add (frames.headD default))
    frames
  rwa [List.length_replicate] at h

lemma framesToSave_eq [Inhabited α] (frames : List α) :
    framesToSave frames = everyFourth frames := by
  unfold framesToSave
  rw [drop_padded]
  have h : frames.enum.filterMap
      (fun p => if p.1 % MODEL_TEMPORAL_STRIDE = 0 then some p.2 else none) =
      strideFilter 0 frames := rfl
  rw [h, strideFilter_eq_everyFourth]

lemma padded_getD_lt [Inhabited α] (frames : List α) (d : α) {i : ℕ}
    (h : i < frames_to_add) :
    (paddedFrames frames).getD i d = frames.headD default := by
  unfold paddedFrames
  rw [List.getD_eq_getElem?_getD,
    List.getElem?_append_left (by rw [List.length_replicate]; exact h),
    List.getElem?_replicate, if_pos h]
  rfl

lemma chain4_map_range (L c : ℕ) :
    List.Chain' (fun a b : ℕ => b = a + MODEL_TEMPORAL_STRIDE)
      ((List.range L).map (fun k => c + 4 * k)) := by
  rw [List.chain'_map]
  cases L with
  | zero => simp
  | succ m =>
    rw [List.chain'_range_succ]
    intro i _
    unfold MODEL_TEMPORAL_STRIDE
    omega

lemma chain3_map_range (L : ℕ) (c : ℤ) :
    List.Chain' (fun a b : ℤ => b = a + 3)
      ((List.range L).map (fun k : ℕ => (3 * k : ℤ) + c)) := by
  rw [List.chain'_map]
  cases L with
  | zero => simp
  | succ m =>
    rw [List.chain'_range_succ]
    intro i _
    push_cast
    ring

/-! ### Claim theorems -/

/-- Claim C9: for every video and every `sample_rate ≥ 1` (source frame rate
at or below the model's operating rate), `uniform_frame_sample` returns the
video unchanged — no frames are dropped, duplicated, or upsampled. -/
theorem C9_identity (video : List ℤ) (r : ℚ) (h : 1 ≤ r) :
    uniform_frame_sample video r = video := by
  unfold uniform_frame_sample
  rw [if_neg (not_lt.mpr h)]

/-- Witness for C9 at `video = [1, 2, 3]`, `sample_rate = 2`. -/
theorem C9_identity_witness :
    (1 : ℚ) ≤ 2 ∧ uniform_frame_sample [(1 : ℤ), 2, 3] 2 = [1, 2, 3] :=
  ⟨by norm_num, C9_identity [1, 2, 3] 2 (by norm_num)⟩

/-- Claim C8: for every video of depth ≥ 1 and every `sample_rate` with
`0 < sample_rate < 1`, every index produced by `uniform_frame_sample` lies
within bounds (`0 ≤ index ≤ depth - 1`, so indexing never fails) and the
selected indices are strictly increasing (frame order preserved, no frame
selected twice); `uniform_frame_sample` is exactly the lookup of those
indices. -/
theorem C8_resampling_safety (video : List ℤ) (r : ℚ) (hd : 1 ≤ video.length)
    (h0 : 0 < r) (h1 : r < 1) :
    (∀ i ∈ sampleIndices video.length r,
      0 ≤ i ∧ i ≤ (video.length : ℤ) - 1) ∧
    (sampleIndices video.length r).Pairwise (· < ·) ∧
    uniform_frame_sample video r =
      (sampleIndices video.length r).map (fun i => video.getD i.toNat 0) :=
  ⟨sampleIndices_bounds _ r hd h0 h1, sampleIndices_pairwise _ r hd h0 h1,
    uniform_frame_sample_eq_map video r hd h0 h1⟩

/-- Witness for C8 at `video = [1, 2]`, `sample_rate = 1/2`. -/
theorem C8_resampling_safety_witness :
    (1 ≤ [(1 : ℤ), 2].length) ∧
    ((∀ i ∈ sampleIndices [(1 : ℤ), 2].length (1/2),
        0 ≤ i ∧ i ≤ ([(1 : ℤ), 2].length : ℤ) - 1) ∧
      (sampleIndices [(1 : ℤ), 2].length (1/2)).Pairwise (· < ·) ∧
      uniform_frame_sample [(1 : ℤ), 2] (1/2) =
        (sampleIndices [(1 : ℤ), 2].length (1/2)).map
          (fun i => [(1 : ℤ), 2].getD i.toNat 0)) :=
  ⟨by decide,
    C8_resampling_safety [1, 2] (1/2) (by decide) (by norm_num) (by norm_num)⟩

/-- Counterexample to claim C2 as stated: at a 3-frame video with
`sample_rate = 2/3` (both exactly representable in binary64, with
`1/(2/3)` rounding to exactly `1.5`), the code selects frame indices
`[0, 1]` (truncation of `[0, 1.5]`), while the round-based rule of the claim
selects `[0, 2]`; the returned frame lists differ. -/
theorem C2_counterexample :
    sampleIndices 3 (2/3) = [0, 1] ∧
    sampleIndicesRoundSpec 3 (2/3) = [0, 2] ∧
    uniform_frame_sample [(10 : ℤ), 20, 30] (2/3) = [10, 20] ∧
    (sampleIndicesRoundSpec 3 (2/3)).map
      (fun i => [(10 : ℤ), 20, 30].getD i.toNat 0) = [10, 30] ∧
    uniform_frame_sample [(10 : ℤ), 20, 30] (2/3) ≠
      (sampleIndicesRoundSpec 3 (2/3)).map
        (fun i => [(10 : ℤ), 20, 30].getD i.toNat 0) := by
  have hL : ⌈((3 : ℕ) : ℚ) / (1 / (2/3))⌉₊ = 2 := by
    rw [Nat.ceil_eq_iff (by norm_num)]
    constructor <;> norm_num
  have hidx : sampleIndices 3 (2/3) = [0, 1] := by
    simp only [sampleIndices, npArange, hL, List.range_succ, List.range_zero,
      List.map_append, List.map_cons, List.map_nil, List.nil_append,
      List.cons_append, List.getLastD_concat]
    norm_num [truncToZero]
  have hround : sampleIndicesRoundSpec 3 (2/3) = [0, 2] := by
    simp only [sampleIndicesRoundSpec, npArange, hL, List.range_succ,
      List.range_zero, List.map_append, List.map_cons, List.map_nil,
      List.nil_append, List.cons_append, List.getLastD_concat]
    norm_num [truncToZero, round_eq]
  have hlen : [(10 : ℤ), 20, 30].length = 3 := rfl
  have hu : uniform_frame_sample [(10 : ℤ), 20, 30] (2/3) = [10, 20] := by
    rw [uniform_frame_sample_eq_map [(10 : ℤ), 20, 30] (2/3) (by decide)
      (by norm_num) (by norm_num), hlen, hidx]
    decide
  refine ⟨hidx, hround, hu, ?_, ?_⟩
  · rw [hround]
    decide
  · rw [hu, hround]
    decide

/-- Claim C2 (amended): for every video of depth ≥ 1 and every
`sample_rate = ratio` with `0 < ratio < 1`, the subsampling step (applied
before any padding or windowing) selects exactly the frames at indices
`⌊i / ratio⌋` (truncation toward zero as by `astype(np.int32)`, not
rounding) shifted by the centering offset
`int((depth - last_unshifted_index) / 2)`. -/
theorem C2_trunc_selection (video : List ℤ) (r : ℚ) (hd : 1 ≤ video.length)
    (h0 : 0 < r) (h1 : r < 1) :
    sampleIndices video.length r =
      (List.range ⌈(video.length : ℚ) / (1 / r)⌉₊).map
        (fun k : ℕ => ⌊(k : ℚ) / r⌋ +
          ⌊((video.length : ℚ) -
            ((⌈(video.length : ℚ) / (1 / r)⌉₊ - 1 : ℕ) : ℚ) / r) / 2⌋) ∧
    uniform_frame_sample video r =
      (sampleIndices video.length r).map (fun i => video.getD i.toNat 0) := by
  constructor
  · have h := sampleIndices_floor_form video.length r hd h0 h1
    simp only [mul_one_div] at h
    exact h
  · exact uniform_frame_sample_eq_map video r hd h0 h1

/-- Witness for C2 (amended) at `video = [5, 6, 7]`, `sample_rate = 1/2`. -/
theorem C2_trunc_selection_witness :
    (1 ≤ [(5 : ℤ), 6, 7].length) ∧
    (sampleIndices [(5 : ℤ), 6, 7].length (1/2) =
      (List.range ⌈(([(5 : ℤ), 6, 7].length : ℕ) : ℚ) / (1 / (1/2))⌉₊).map
        (fun k : ℕ => ⌊(k : ℚ) / (1/2)⌋ +
          ⌊((([(5 : ℤ), 6, 7].length : ℕ) : ℚ) -
            ((⌈(([(5 : ℤ), 6, 7].length : ℕ) : ℚ) / (1 / (1/2))⌉₊ - 1 : ℕ) : ℚ)
              / (1/2)) / 2⌋) ∧
    uniform_frame_sample [(5 : ℤ), 6, 7] (1/2) =
      (sampleIndices [(5 : ℤ), 6, 7].length (1/2)).map
        (fun i => [(5 : ℤ), 6, 7].getD i.toNat 0)) :=
  ⟨by decide,
    C2_trunc_selection [5, 6, 7] (1/2) (by decide) (by norm_num) (by norm_num)⟩

/-- Claim C3: resampling a source at 60 fps to the model rate of 20 fps
(`sample_rate = 20/60 = 1/3`) selects exactly every third frame — the `k`-th
selected index is `3k` plus the centering offset
`int((depth - last_unshifted_index) / 2)` with
`last_unshifted_index = 3 * (⌈depth/3⌉ - 1)` — so consecutive selected
indices differ by exactly 3. -/
theorem C3_sixty_to_twenty (depth : ℕ) (hd : 1 ≤ depth) :
    sampleIndices depth (20/60) =
      (List.range ((depth + 2) / 3)).map
        (fun k : ℕ => (3 * k : ℤ) +
          (((depth - 3 * ((depth + 2) / 3 - 1)) / 2 : ℕ) : ℤ)) ∧
    List.Chain' (fun a b : ℤ => b = a + 3) (sampleIndices depth (20/60)) := by
  have h0 : (0 : ℚ) < 20/60 := by norm_num
  have h1 : (20 : ℚ)/60 < 1 := by norm_num
  have hform := sampleIndices_floor_form depth (20/60) hd h0 h1
  have hr : (1 : ℚ) / (20/60) = 3 := by norm_num
  have hL : ⌈(depth : ℚ) / 3⌉₊ = (depth + 2) / 3 := natCeil_div3 depth
  simp only [hr, hL] at hform
  have hle : 3 * ((depth + 2) / 3 - 1) ≤ depth := by omega
  have hpoint : ∀ k : ℕ,
      ⌊(k : ℚ) * 3⌋ +
        ⌊((depth : ℚ) - (((depth + 2) / 3 - 1 : ℕ) : ℚ) * 3) / 2⌋ =
      (3 * k : ℤ) + (((depth - 3 * ((depth + 2) / 3 - 1)) / 2 : ℕ) : ℤ) := by
    intro k
    have hcast : (depth : ℚ) - (((depth + 2) / 3 - 1 : ℕ) : ℚ) * 3 =
        ((depth - 3 * ((depth + 2) / 3 - 1) : ℕ) : ℚ) := by
      rw [Nat.cast_sub hle]
      push_cast
      ring
    rw [hcast, intFloor_natCast_div2]
    congr 1
    have h3 : ((k : ℚ)) * 3 = ((3 * k : ℕ) : ℚ) := by
      push_cast
      ring
    rw [h3, Int.floor_natCast]
    push_cast
    ring
  have hmain : sampleIndices depth (20/60) =
      (List.range ((depth + 2) / 3)).map
        (fun k : ℕ => (3 * k : ℤ) +
          (((depth - 3 * ((depth + 2) / 3 - 1)) / 2 : ℕ) : ℤ)) := by
    rw [hform]
    apply List.map_congr_left
    intro k _
    exact hpoint k
  refine ⟨hmain, ?_⟩
  rw [hmain]
  exact chain3_map_range _ _

/-- Witness for C3 at `depth = 8` (selected indices `[1, 4, 7]`). -/
theorem C3_sixty_to_twenty_witness :
    1 ≤ 8 ∧
    (sampleIndices 8 (20/60) =
      (List.range ((8 + 2) / 3)).map
        (fun k : ℕ => (3 * k : ℤ) +
          (((8 - 3 * ((8 + 2) / 3 - 1)) / 2 : ℕ) : ℤ)) ∧
    List.Chain' (fun a b : ℤ => b = a + 3) (sampleIndices 8 (20/60))) :=
  ⟨by decide, C3_sixty_to_twenty 8 (by decide)⟩

/-- Claim C1: for every non-empty input frame stream (R = 45, S = 4), the
window fed to the model is left-padded with copies of the first received
frame, and the first feature reported to the caller (step 0, with
`num_timesteps = 1` features kept from the padded prefix) is the one whose
window right edge is padded-stream position `frames_to_add = 47`, which is
exactly where the first real frame sits (positions below 47 hold padding
copies of it). -/
theorem C1_warmup_first_step (frames : List ℤ) (h : frames ≠ []) :
    (∀ i < frames_to_add, (paddedFrames frames).getD i 0 = frames.headD 0) ∧
    (paddedFrames frames).drop frames_to_add = frames ∧
    (computeFeatureEdges frames.length 1).head? = some frames_to_add := by
  have hn : 1 ≤ frames.length := List.length_pos.mpr h
  refine ⟨fun i hi => padded_getD_lt frames 0 hi, drop_padded frames, ?_⟩
  rw [computeFeatureEdges_one hn, List.range_succ_eq_map, List.map_cons,
    List.head?_cons]
  rfl

/-- Witness for C1 at the one-frame stream `[5]`. -/
theorem C1_warmup_first_step_witness :
    ([(5 : ℤ)] ≠ []) ∧
    ((∀ i < frames_to_add, (paddedFrames [(5 : ℤ)]).getD i 0 = [(5 : ℤ)].headD 0) ∧
      (paddedFrames [(5 : ℤ)]).drop frames_to_add = [(5 : ℤ)] ∧
      (computeFeatureEdges [(5 : ℤ)].length 1).head? = some frames_to_add) :=
  ⟨by decide, C1_warmup_first_step [5] (by decide)⟩

/-- Counterexample to claim C4 as stated: for the 5-frame stream
`[0, 1, 2, 3, 4]` (which ends before R = 45 frames), the pipeline emits two
features, not exactly one, and the padding frame is the first seen frame
(0), not the last seen frame (4). -/
theorem C4_counterexample :
    (computeFeatureEdges [(0 : ℤ), 1, 2, 3, 4].length 1).length ≠ 1 ∧
    (paddedFrames [(0 : ℤ), 1, 2, 3, 4]).getD 0 0 ≠
      [(0 : ℤ), 1, 2, 3, 4].getLastD 0 := by
  constructor <;> decide

/-- Claim C4 (amended): for every non-empty input stream that ends before
R = 45 frames have been seen, the processing left-pads the stream up to at
least R frames using the first seen frame, and then emits exactly
`1 + (n - 1) / 4` features — at least one (and exactly one only when
`n ≤ 4`). -/
theorem C4_short_stream (frames : List ℤ) (h1 : 1 ≤ frames.length)
    (_h2 : frames.length < MODEL_TEMPORAL_DEPENDENCY) :
    (∀ i < frames_to_add, (paddedFrames frames).getD i 0 = frames.headD 0) ∧
    MODEL_TEMPORAL_DEPENDENCY ≤ (paddedFrames frames).length ∧
    (computeFeatureEdges frames.length 1).length =
      1 + (frames.length - 1) / 4 ∧
    1 ≤ (computeFeatureEdges frames.length 1).length := by
  refine ⟨fun i hi => padded_getD_lt frames 0 hi, ?_, ?_, ?_⟩
  · unfold paddedFrames
    rw [List.length_append, List.length_replicate]
    unfold frames_to_add MODEL_TEMPORAL_STRIDE MODEL_TEMPORAL_DEPENDENCY
    omega
  · rw [computeFeatureEdges_one h1, List.length_map, List.length_range]
    omega
  · rw [computeFeatureEdges_one h1, List.length_map, List.length_range]
    omega

/-- Witness for C4 (amended) at the 5-frame stream `[1, 2, 3, 4, 5]`. -/
theorem C4_short_stream_witness :
    (1 ≤ [(1 : ℤ), 2, 3, 4, 5].length) ∧
    ([(1 : ℤ), 2, 3, 4, 5].length < MODEL_TEMPORAL_DEPENDENCY) ∧
    ((∀ i < frames_to_add,
        (paddedFrames [(1 : ℤ), 2, 3, 4, 5]).getD i 0 =
          [(1 : ℤ), 2, 3, 4, 5].headD 0) ∧
      MODEL_TEMPORAL_DEPENDENCY ≤ (paddedFrames [(1 : ℤ), 2, 3, 4, 5]).length ∧
      (computeFeatureEdges [(1 : ℤ), 2, 3, 4, 5].length 1).length =
        1 + ([(1 : ℤ), 2, 3, 4, 5].length - 1) / 4 ∧
      1 ≤ (computeFeatureEdges [(1 : ℤ), 2, 3, 4, 5].length 1).length) :=
  ⟨by decide, by decide, C4_short_stream [1, 2, 3, 4, 5] (by decide) (by decide)⟩

/-- Claim C5: for every input frame stream of length at least 1 (the model
treated as an opaque strided function), the feature-computation pipeline
produces at least one saved feature, whatever `num_timesteps` is. -/
theorem C5_at_least_one (n t : ℕ) (hn : 1 ≤ n) :
    1 ≤ (computeFeatureEdges n t).length := by
  simp only [computeFeatureEdges]
  rw [warmupChunkLen_eq hn, List.length_append]
  have hpre : inferOutputs 0 48 ≠ [] := by decide
  have hkept : 1 ≤ (pythonTail t (inferOutputs 0 48)).length :=
    List.length_pos.mpr (pythonTail_ne_nil hpre t)
  omega

/-- Witness for C5 at `n = 1`, `num_timesteps = 1`. -/
theorem C5_at_least_one_witness :
    1 ≤ 1 ∧ 1 ≤ (computeFeatureEdges 1 1).length :=
  ⟨by decide, C5_at_least_one 1 1 (by decide)⟩

/-- Claim C6: for every non-empty input stream, the warm-up inference call
receives exactly `frames_to_add + 1 = S * (R / S + 1) = 48 ≥ 45` frames; the
model (whose window is the cumulative stream it has consumed, since its
state persists across the two calls) always has at least R = 45 frames of
real-plus-padding history available (`frames_to_add + n ≥ 45`), and every
saved feature is emitted at a right edge with at least 45 consumed frames
behind it. -/
theorem C6_min_context (n : ℕ) (hn : 1 ≤ n) :
    warmupChunkLen n =
      MODEL_TEMPORAL_STRIDE *
        (MODEL_TEMPORAL_DEPENDENCY / MODEL_TEMPORAL_STRIDE + 1) ∧
    MODEL_TEMPORAL_DEPENDENCY ≤ warmupChunkLen n ∧
    MODEL_TEMPORAL_DEPENDENCY ≤ frames_to_add + n ∧
    ∀ p ∈ computeFeatureEdges n 1, MODEL_TEMPORAL_DEPENDENCY ≤ p + 1 := by
  refine ⟨?_, ?_, ?_, ?_⟩
  · rw [warmupChunkLen_eq hn]
    decide
  · rw [warmupChunkLen_eq hn]
    decide
  · unfold frames_to_add MODEL_TEMPORAL_STRIDE MODEL_TEMPORAL_DEPENDENCY
    omega
  · intro p hp
    rw [computeFeatureEdges_one hn] at hp
    obtain ⟨k, hk, rfl⟩ := List.mem_map.mp hp
    unfold MODEL_TEMPORAL_DEPENDENCY
    omega

/-- Witness for C6 at `n = 3`. -/
theorem C6_min_context_witness :
    1 ≤ 3 ∧
    (warmupChunkLen 3 =
      MODEL_TEMPORAL_STRIDE *
        (MODEL_TEMPORAL_DEPENDENCY / MODEL_TEMPORAL_STRIDE + 1) ∧
    MODEL_TEMPORAL_DEPENDENCY ≤ warmupChunkLen 3 ∧
    MODEL_TEMPORAL_DEPENDENCY ≤ frames_to_add + 3 ∧
    ∀ p ∈ computeFeatureEdges 3 1, MODEL_TEMPORAL_DEPENDENCY ≤ p + 1) :=
  ⟨by decide, C6_min_context 3 (by decide)⟩

/-- Claim C7: for every non-empty input stream, consecutive emitted steps
have window right edges exactly S = 4 frames apart, there are as many saved
representative frames as saved features, and the representative frame saved
for step `e` is the real frame at offset `S * e` from the first real
frame. -/
theorem C7_stride_alignment (frames : List ℤ) (h : frames ≠ []) :
    List.Chain' (fun a b => b = a + MODEL_TEMPORAL_STRIDE)
      (computeFeatureEdges frames.length 1) ∧
    (framesToSave frames).length =
      (computeFeatureEdges frames.length 1).length ∧
    ∀ e : ℕ, (framesToSave frames).getD e 0 =
      frames.getD (MODEL_TEMPORAL_STRIDE * e) 0 := by
  have hn : 1 ≤ frames.length := List.length_pos.mpr h
  refine ⟨?_, ?_, ?_⟩
  · rw [computeFeatureEdges_one hn]
    exact chain4_map_range _ 47
  · rw [framesToSave_eq, everyFourth_length, computeFeatureEdges_one hn,
      List.length_map, List.length_range]
    omega
  · intro e
    rw [framesToSave_eq, everyFourth_getD]
    rfl

/-- Witness for C7 at the 5-frame stream `[1, 2, 3, 4, 5]`. -/
theorem C7_stride_alignment_witness :
    ([(1 : ℤ), 2, 3, 4, 5] ≠ []) ∧
    (List.Chain' (fun a b => b = a + MODEL_TEMPORAL_STRIDE)
        (computeFeatureEdges [(1 : ℤ), 2, 3, 4, 5].length 1) ∧
      (framesToSave [(1 : ℤ), 2, 3, 4, 5]).length =
        (computeFeatureEdges [(1 : ℤ), 2, 3, 4, 5].length 1).length ∧
      ∀ e : ℕ, (framesToSave [(1 : ℤ), 2, 3, 4, 5]).getD e 0 =
        [(1 : ℤ), 2, 3, 4, 5].getD (MODEL_TEMPORAL_STRIDE * e) 0) :=
  ⟨by decide, C7_stride_alignment [1, 2, 3, 4, 5] (by decide)⟩

/-- Claim C10: in `FeaturesDataset.__getitem__`, for every item without
temporal labelling whose feature count exceeds `num_timesteps`, any crop
start drawn by `randint` is at least the clamped minimum position, and —
whenever the video is long enough
(`num_preds > num_timesteps + num_frames_padded`) — at least
`num_frames_padded`, so the returned crop `features[position : position +
num_timesteps]` contains no feature with index below `num_frames_padded`. -/
theorem C10_crop_excludes_padding (num_preds num_timesteps full stride : ℕ)
    (position : ℤ) (ht : num_timesteps < num_preds)
    (hlo : getitem_minimum_position num_preds num_timesteps
      (num_frames_padded full stride) ≤ position)
    (_hhi : position < (num_preds : ℤ) - num_timesteps) :
    getitem_minimum_position num_preds num_timesteps
      (num_frames_padded full stride) ≤ position ∧
    ((num_timesteps : ℤ) + num_frames_padded full stride < num_preds →
      (num_frames_padded full stride : ℤ) ≤ position) ∧
    ∀ (features : List ℤ) (i : ℕ),
      i < (getitem_crop features position.toNat num_timesteps).length →
      (getitem_crop features position.toNat num_timesteps).getD i 0 =
        features.getD (position.toNat + i) 0 := by
  refine ⟨hlo, ?_, ?_⟩
  · intro hlong
    unfold getitem_minimum_position at hlo
    omega
  · intro features i hi
    unfold getitem_crop at hi ⊢
    rw [List.length_take, List.length_drop] at hi
    rw [List.getD_eq_getElem?_getD, List.getD_eq_getElem?_getD,
      List.getElem?_take, if_pos (by omega : i < num_timesteps),
      List.getElem?_drop]

/-- Witness for C10 at `num_preds = 20`, `num_timesteps = 5`,
`full_network_minimum_frames = 45`, `stride = 4`, `position = 11`. -/
theorem C10_crop_excludes_padding_witness :
    (5 < 20) ∧
    (getitem_minimum_position 20 5 (num_frames_padded 45 4) ≤ 11) ∧
    ((11 : ℤ) < (20 : ℤ) - 5) ∧
    (getitem_minimum_position 20 5 (num_frames_padded 45 4) ≤ 11 ∧
      ((5 : ℤ) + num_frames_padded 45 4 < 20 →
        (num_frames_padded 45 4 : ℤ) ≤ 11) ∧
      ∀ (features : List ℤ) (i : ℕ),
        i < (getitem_crop features (11 : ℤ).toNat 5).length →
        (getitem_crop features (11 : ℤ).toNat 5).getD i 0 =
          features.getD ((11 : ℤ).toNat + i) 0) :=
  ⟨by decide, by decide, by decide,
    C10_crop_excludes_padding 20 5 45 4 11 (by decide) (by decide) (by decide)⟩

end CVAction

